import Mathlib

/-
Verification of the MARCS local AI runtime core (model-session lifecycle,
tokenizer, sampling decode loop) against its specification.

Shallow embedding notes:
* Source of truth: `src/src/workers/aiWorker.ts` (SimpleTokenizer, AIWorker),
  `src/src/lib/ai/tokenizer.ts` (identical SimpleTokenizer), the unnamed parts
  `part_008` (ONNXModelLoader) and `part_010` (ONNXInferenceEngine).
* JavaScript numbers appearing in logits/probabilities are idealised as an
  arbitrary `LinearOrderedField` (instantiated at `ℚ` for executable
  witnesses and at `ℝ` with `Real.exp` for the analytic temperature claim).
* `Math.exp` is passed around as an explicit function parameter `ex`; the
  real-number theorems instantiate it with `Real.exp`.
* Token ids are `ℤ` (JS numbers; `Array.indexOf` can produce `-1`).
* External effects (ONNX session creation, `session.run`, `session.release`,
  `Math.random`) are passed in as explicit oracles: allocation as an
  `Option` session, `run` as a function returning `Except` (a thrown
  exception) of an optional tensor, `release` as a boolean outcome,
  randomness as an explicit draw.
-/

namespace MARCS

/-! ## SimpleTokenizer (aiWorker.ts lines 11-69, tokenizer.ts lines 3-98) -/

/-- The hand-written vocabulary list (`commonTokens` in the source); the
`Map` is built by `forEach (token, index) => set token index`, so token ids
are list positions. -/
def commonTokens : List String :=
  ["<pad>", "<unk>", "<s>", "</s>", "<mask>",
   "the", "a", "an", "and", "or", "but", "in", "on", "at", "to", "for", "of", "with", "by",
   "I", "you", "he", "she", "it", "we", "they", "me", "him", "her", "us", "them",
   "is", "are", "was", "were", "be", "been", "being", "have", "has", "had", "do", "does", "did",
   "will", "would", "could", "should", "may", "might", "can", "must",
   "not", "no", "yes", "please", "thank", "hello", "goodbye", "sorry",
   ".", ",", "!", "?", ":", ";", "\x22", "\x27", "(", ")", "[", "]", "\x7b", "\x7d",
   "0", "1", "2", "3", "4", "5", "6", "7", "8", "9"]

/-- The fourteen punctuation characters isolated by the tokenizer regex
(period, exclamation, question mark, comma, colon, semicolon, the two quote
characters, and the three bracket pairs). -/
def punctChars : List Char := ".!?,:;\x27\x22()[]\x7b\x7d".data

def isPunct (c : Char) : Bool := punctChars.contains c

/-- JavaScript `\s` whitespace (ASCII part; the inputs of interest are ASCII). -/
def isWs (c : Char) : Bool :=
  c == ' ' || c == '\t' || c == '\n' || c == '\r' || c == '\x0b' || c == '\x0c'

/-- ASCII model of JavaScript `String.prototype.toLowerCase` on a single
character, as a lookup table over the 26 uppercase letters. -/
def lowerTable : List (Char × Char) :=
  [('A', 'a'), ('B', 'b'), ('C', 'c'), ('D', 'd'), ('E', 'e'), ('F', 'f'),
   ('G', 'g'), ('H', 'h'), ('I', 'i'), ('J', 'j'), ('K', 'k'), ('L', 'l'),
   ('M', 'm'), ('N', 'n'), ('O', 'o'), ('P', 'p'), ('Q', 'q'), ('R', 'r'),
   ('S', 's'), ('T', 't'), ('U', 'u'), ('V', 'v'), ('W', 'w'), ('X', 'x'),
   ('Y', 'y'), ('Z', 'z')]

def charToLower (c : Char) : Char :=
  ((lowerTable.find? (fun p => p.1 == c)).map Prod.snd).getD c

def toLowerStr (s : String) : String := ⟨s.data.map charToLower⟩

/-- Models the replace step of tokenizeText: every punctuation-class
character is surrounded by single spaces. -/
def expandPunct (cs : List Char) : List Char :=
  cs.flatMap fun c => if isPunct c then [' ', c, ' '] else [c]

/-- `split(/\s+/)` followed by `filter (token.length > 0)`: maximal runs of
non-whitespace characters. -/
def splitWsAux : List Char → List Char → List (List Char)
  | [], acc => if acc.isEmpty then [] else [acc.reverse]
  | c :: cs, acc =>
    if isWs c then
      (if acc.isEmpty then splitWsAux cs [] else acc.reverse :: splitWsAux cs [])
    else splitWsAux cs (c :: acc)

def splitWs (cs : List Char) : List (List Char) := splitWsAux cs []

/-- `SimpleTokenizer.tokenizeText`. -/
def tokenizeText (text : String) : List String :=
  (splitWs (expandPunct (text.data.map charToLower))).map fun cs => ⟨cs⟩

/-- First index (running from `i`) of `w` in `ts`; models `Map.get` of the
vocabulary map (the token list has no duplicates). -/
def idxLookup : List String → ℤ → String → Option ℤ
  | [], _, _ => none
  | t :: ts, i, w => if t = w then some i else idxLookup ts (i + 1) w

/-- Reverse direction, models `reverseVocabulary.get`. -/
def revLookup : List String → ℤ → ℤ → Option String
  | [], _, _ => none
  | t :: ts, j, i => if j = i then some t else revLookup ts (j + 1) i

/-- Models the encode lookup chain: the vocabulary entry of the lowercased
word, else the entry of the unknown-token marker, else 1. -/
def tokenIdOf (w : String) : ℤ :=
  match idxLookup commonTokens 0 w with
  | some i => i
  | none =>
    match idxLookup commonTokens 0 "<unk>" with
    | some i => i
    | none => 1

/-- `SimpleTokenizer.encode`. -/
def encode (text : String) : List ℤ :=
  (tokenizeText text).map fun word => tokenIdOf (toLowerStr word)

/-- Models the decode lookup: the reverse-vocabulary entry of the id, else
the unknown-token marker. -/
def tokenOfId (tokenId : ℤ) : String := (revLookup commonTokens 0 tokenId).getD "<unk>"

/-- The sentinel filter in `decode`. -/
def notSentinel (word : String) : Bool :=
  word != "<pad>" && word != "<s>" && word != "</s>"

/-- Models the single-space join of the decoded words, on the underlying
character lists. -/
def joinWords : List (List Char) → List Char
  | [] => []
  | [w] => w
  | w :: ws => w ++ ' ' :: joinWords ws

/-- `SimpleTokenizer.decode`. -/
def decode (tokens : List ℤ) : String :=
  ⟨joinWords (((tokens.map tokenOfId).filter notSentinel).map String.data)⟩

/-- Specification predicate: a character list that survives tokenization
verbatim (nonempty, lowercase-fixed, no whitespace, and either a single
character or free of the punctuation class). -/
def cleanTok (cs : List Char) : Bool :=
  !cs.isEmpty && cs.all (fun c => charToLower c == c && !isWs c) &&
    (cs.length == 1 || cs.all fun c => !isPunct c)

/-- Specification predicate: a token id whose vocabulary entry is fixed by
lowercasing; every id `encode` emits is of this kind. -/
def goodId (i : ℤ) : Bool :=
  match revLookup commonTokens 0 i with
  | some t => toLowerStr t == t
  | none => false

/-- Specification predicate: ids whose decoded word is not one of the
dropped sentinels `<pad>`, `<s>`, `</s>`. -/
def idOk (i : ℤ) : Bool := !(i == 0) && !(i == 2) && !(i == 3)

/-! ## Numeric pipeline pieces shared by `AIWorker.greedyDecode`
(aiWorker.ts lines 221-291) and `ONNXInferenceEngine.sampleToken`
(part_010 lines 205-282) -/

section Numeric

variable {α : Type} [LinearOrderedField α]

/-- An ONNX output tensor: flat data plus shape (`dims`). -/
structure TensorW (α : Type) where
  data : List α
  dims : List Nat

/-- `Math.max(...l)` on a nonempty list; the `[]` case (JS `-Infinity`) is
unreachable in the claims, which all concern nonempty vectors. -/
def listMax (l : List α) : α :=
  match l with
  | [] => 0
  | a :: as => as.foldl max a

/-- `data.slice(-k)`: the last `k` elements (`slice(-0)` is the whole array). -/
def takeLastJS (k : Nat) (l : List α) : List α :=
  if k = 0 then l else l.drop (l.length - k)

/-- `Array.prototype.indexOf` (first index of `v`, `-1` when absent). -/
def idxOf? : List α → α → Option Nat
  | [], _ => none
  | x :: xs, v => if x = v then some 0 else (idxOf? xs v).map (· + 1)

def jsIndexOf (l : List α) (v : α) : ℤ :=
  match idxOf? l v with
  | some i => (i : ℤ)
  | none => -1

/-- Temperature scaling: `if (temperature !== 1.0) logits[i] /= temperature`. -/
def scaleTemp (temperature : α) (l : List α) : List α :=
  if temperature = 1 then l else l.map fun x => x / temperature

/-- Max-subtraction softmax (`ex` models `Math.exp`). -/
def softmaxMS (ex : α → α) (l : List α) : List α :=
  let maxLogit := listMax l
  let expLogits := l.map fun x => ex (x - maxLogit)
  let sumExp := expLogits.sum
  expLogits.map fun e => e / sumExp

/-- The `(prob, index)` pairs sorted by probability descending (stable, like
JS `sort`); we carry `enum`-style `(index, prob)` pairs. -/
def sortPairs (probs : List α) : List (Nat × α) :=
  List.insertionSort (fun a b : Nat × α => b.2 ≤ a.2) probs.enum

/-- The nucleus loop: push each sorted item, stop once the running
cumulative probability has reached `topP`. -/
def takeToMassP : List (Nat × α) → α → α → List (Nat × α)
  | [], _, _ => []
  | item :: rest, cum, topP =>
    let c := cum + item.2
    if topP ≤ c then [item] else item :: takeToMassP rest c topP

def nucleusIndices (probs : List α) (topP : α) : List Nat :=
  (takeToMassP (sortPairs probs) 0 topP).map Prod.fst

/-- `if (!keep.includes(i)) probs[i] = 0`. -/
def zeroOutside (probs : List α) (keep : List Nat) : List α :=
  probs.enum.map fun pr => if pr.1 ∈ keep then pr.2 else 0

/-- The guarded top-p zeroing stage `if (topP && topP > 0 && topP < 1) ...`
as it appears in `ONNXInferenceEngine.sampleToken` (part_010 lines 240-259);
`AIWorker.greedyDecode` inlines the same stage with the renormalisation
inside the guard. -/
def applyTopPFilter (probs : List α) (topP : Option α) : List α :=
  match topP with
  | none => probs
  | some p => if 0 < p ∧ p < 1 then zeroOutside probs (nucleusIndices probs p) else probs

/-- `slice(0, topK)` of the descending sort, as index set. -/
def topKIndices (probs : List α) (k : Nat) : List Nat :=
  ((sortPairs probs).take k).map Prod.fst

/-- `if (totalProb > 0) probs[i] /= totalProb`. -/
def renorm (probs : List α) : List α :=
  let totalProb := probs.sum
  if 0 < totalProb then probs.map fun p => p / totalProb else probs

/-- The cumulative-distribution walk: return the first index whose running
cumulative probability reaches the uniform draw `random`. -/
def walkSelectAux : List α → α → α → Nat → Option Nat
  | [], _, _, _ => none
  | p :: rest, random, cum, i =>
    let c := cum + p
    if random ≤ c then some i else walkSelectAux rest random c (i + 1)

def walkSelect (probs : List α) (random : α) : Option Nat := walkSelectAux probs random 0 0

/-- Sampling walk plus fallback of `AIWorker.greedyDecode` (aiWorker.ts
lines 277-291): on a failed walk, fall back to
`probs.indexOf(Math.max(...probs))` (argmax). -/
def walkFallbackW (probs : List α) (random : α) : ℤ :=
  match walkSelect probs random with
  | some i => (i : ℤ)
  | none => jsIndexOf probs (listMax probs)

/-- Sampling walk plus fallback of `ONNXInferenceEngine.sampleToken`
(part_010 lines 269-282): on a failed walk, `return probs.length - 1`
(the last token, not the argmax). -/
def walkFallbackE (probs : List α) (random : α) : ℤ :=
  match walkSelect probs random with
  | some i => (i : ℤ)
  | none => (probs.length : ℤ) - 1

end Numeric

/-! ## AIWorker (aiWorker.ts lines 78-383) -/

section Worker

variable {α : Type} [LinearOrderedField α]

/-- An `ort.InferenceSession` as seen by the worker: `run` may throw
(`Except.error`), succeed with no recognisable output tensor
(`Except.ok none`), or produce a tensor; `releaseOk` is the outcome of
`session.release()` (`false` = it throws). -/
structure SessionW (α : Type) where
  run : List ℤ → Except String (Option (TensorW α))
  releaseOk : Bool

/-- A `ModelInfo` registry entry (the per-model `SimpleTokenizer` instance is
the pure tokenizer above and needs no state). -/
structure ModelInfoW (α : Type) where
  name : String
  path : String
  session : Option (SessionW α)

/-- `Map.get` over the insertion-ordered entry list. -/
def lookupJS {β : Type} : List (String × β) → String → Option β
  | [], _ => none
  | (k, v) :: rest, key => if k = key then some v else lookupJS rest key

/-- `Map.delete`. -/
def eraseKey {β : Type} : List (String × β) → String → List (String × β)
  | [], _ => []
  | (k, v) :: rest, key =>
    if k = key then eraseKey rest key else (k, v) :: eraseKey rest key

/-- `options.maxTokens || 100` (note `||`: an explicit `0` also falls back). -/
def orDefaultNat (v : Option Nat) (d : Nat) : Nat :=
  match v with
  | none => d
  | some n => if n = 0 then d else n

/-- `options.temperature || 1.0` and friends. -/
def orDefault (v : Option α) (d : α) : α :=
  match v with
  | none => d
  | some x => if x = 0 then d else x

namespace AIWorker

/-- `getLoadedModels`: `Array.from(this.models.keys())`. -/
def getLoadedModels (models : List (String × ModelInfoW α)) : List String :=
  models.map Prod.fst

/-- `loadModel(modelName, modelPath)`.  `create` is the outcome of
`ort.InferenceSession.create(modelPath, ...)` (`none` = it throws, caught
and converted to `false`).  Returns (result, new registry, whether a new
session was allocated); the source returns only the boolean. -/
def loadModel (models : List (String × ModelInfoW α)) (modelName modelPath : String)
    (create : Option (SessionW α)) :
    Bool × List (String × ModelInfoW α) × Bool :=
  if (lookupJS models modelName).isSome then (true, models, false)
  else
    match create with
    | some session =>
      (true, models ++ [(modelName, ⟨modelName, modelPath, some session⟩)], true)
    | none => (false, models, false)

/-- `unloadModel(modelName)` (aiWorker.ts lines 130-149).  When
`session.release()` throws, the `catch` returns `false` and — crucially —
the `models.delete(modelName)` line is never executed. -/
def unloadModel (models : List (String × ModelInfoW α)) (modelName : String) :
    Bool × List (String × ModelInfoW α) :=
  match lookupJS models modelName with
  | none => (false, models)
  | some modelInfo =>
    match modelInfo.session with
    | some s =>
      if s.releaseOk then (true, eraseKey models modelName) else (false, models)
    | none => (true, eraseKey models modelName)

/-- `greedyDecode(outputTensor, maxTokens, temperature, topP)` (aiWorker.ts
lines 221-291).  Note that `maxTokens` is never used: the function performs
one sampling step and returns a single token. -/
def greedyDecode (ex : α → α) (outputTensor : TensorW α) (maxTokens : Nat)
    (temperature : α) (topP : Option α) (random : α) : List ℤ :=
  let vocabSize := outputTensor.dims.getLastD 0
  let lastTokenLogits := takeLastJS vocabSize outputTensor.data
  let scaled := scaleTemp temperature lastTokenLogits
  let probs := softmaxMS ex scaled
  let probs2 :=
    match topP with
    | some p =>
      if 0 < p ∧ p < 1 then renorm (zeroOutside probs (nucleusIndices probs p)) else probs
    | none => probs
  [walkFallbackW probs2 random]

/-- The fixed diagnostic produced by the catch block of `generateText`. -/
def errString (msg : String) : String :=
  "[Inference Error: " ++ msg ++
    ". This could mean the model file is missing, incompatible, or the model requires a specific input format. Please check that ONNX models are properly loaded in the /models directory.]"

/-- `generateText(modelName, prompt, options)` (aiWorker.ts lines 151-219).
Every throw inside the `try` lands in the catch block, which returns the
`[Inference Error: ...]` diagnostic string.  `options.stopTokens` is
accepted but never read. -/
structure GenOptionsW (α : Type) where
  maxTokens : Option Nat := none
  temperature : Option α := none
  topP : Option α := none
  stopTokens : Option (List String) := none

def generateText (ex : α → α) (models : List (String × ModelInfoW α))
    (modelName prompt : String) (options : GenOptionsW α) (random : α) : String :=
  match lookupJS models modelName with
  | none => errString ("Model " ++ modelName ++ " not loaded")
  | some modelInfo =>
    match modelInfo.session with
    | none => errString ("Model " ++ modelName ++ " not loaded")
    | some session =>
      let maxTokens := orDefaultNat options.maxTokens 100
      let temperature := orDefault options.temperature 1
      let inputTokens := encode prompt
      match session.run inputTokens with
      | Except.error e => errString e
      | Except.ok none => errString "No output tensor found in model results"
      | Except.ok (some outputTensor) =>
        let outputTokens := greedyDecode ex outputTensor maxTokens temperature options.topP random
        let generatedText := decode outputTokens
        if generatedText = "" then "Generated response from ONNX model" else generatedText

end AIWorker

end Worker

/-! ## ONNXModelLoader (part_008) and ONNXInferenceEngine (part_010) -/

section Engine

variable {α : Type} [LinearOrderedField α]

namespace ONNXModelLoader

/-- `unloadModel(modelId)` (part_008 lines 65-77): when `release()` throws,
the error is logged and rethrown (first component `some msg`), and the
`loadedModels.delete(modelId)` line is never executed. -/
def unloadModel (loadedModels : List (String × SessionW α)) (modelId : String) :
    Option String × List (String × SessionW α) :=
  match lookupJS loadedModels modelId with
  | none => (none, loadedModels)
  | some session =>
    if session.releaseOk then (none, eraseKey loadedModels modelId)
    else (some ("Failed to unload model " ++ modelId), loadedModels)

end ONNXModelLoader

/-- The per-model configuration fields the engine reads. -/
structure ModelConfigW (α : Type) where
  maxTokens : Nat
  temperature : α

structure InferenceOptionsW (α : Type) where
  temperature : Option α := none
  maxTokens : Option Nat := none
  topP : Option α := none
  topK : Option Nat := none
  stopSequences : Option (List String) := none

namespace ONNXInferenceEngine

/-- `sampleToken(outputTensor, temperature, topP, topK)` (part_010
lines 205-282). -/
def sampleToken (ex : α → α) (outputTensor : TensorW α) (temperature : α)
    (topP : Option α) (topK : Option Nat) (random : α) : ℤ :=
  let vocabSize := outputTensor.dims.getLastD 0
  let logits := takeLastJS vocabSize outputTensor.data
  let scaled := scaleTemp temperature logits
  let probs0 := softmaxMS ex scaled
  let probs1 :=
    match topK with
    | some k => if 0 < k then zeroOutside probs0 (topKIndices probs0 k) else probs0
    | none => probs0
  let probs2 := applyTopPFilter probs1 topP
  let probs3 := renorm probs2
  walkFallbackE probs3 random

/-- `String.prototype.includes`. -/
def containsStr (s sub : String) : Bool := decide (sub.data <:+: s.data)

/-- `isStopToken(token, stopSequences)` (part_010 lines 284-291). -/
def isStopToken (token : ℤ) (stopSequences : Option (List String)) : Bool :=
  match stopSequences with
  | none => false
  | some seqs =>
    if seqs.isEmpty then false
    else seqs.any fun seq => containsStr (decode [token]) seq

/-- The body of the `for (let i = 0; i < maxTokens; i++)` loop of
`generateStream` (part_010 lines 113-144), with the loop counter as fuel.
Returns the list of yielded text chunks (one per generated token); a thrown
`run` error or a missing output tensor ends the stream. -/
def streamLoop (run : List ℤ → Except String (Option (TensorW α))) (ex : α → α)
    (rands : Nat → α) (temperature : α) (topP : Option α) (topK : Option Nat)
    (stopSequences : Option (List String)) (configMax : Nat) :
    Nat → Nat → List ℤ → List String → List String
  | 0, _, _, acc => acc.reverse
  | fuel + 1, i, currentTokens, acc =>
    match run currentTokens with
    | Except.error _ => acc.reverse
    | Except.ok none => acc.reverse
    | Except.ok (some outputTensor) =>
      let nextToken := sampleToken ex outputTensor temperature topP topK (rands i)
      if isStopToken nextToken stopSequences then acc.reverse
      else
        let current := currentTokens ++ [nextToken]
        let newText := decode [nextToken]
        if configMax < current.length then (newText :: acc).reverse
        else
          streamLoop run ex rands temperature topP topK stopSequences configMax
            fuel (i + 1) current (newText :: acc)

/-- `Math.min(options.maxTokens || config.maxTokens, config.maxTokens)`. -/
def resolvedMaxTokens (config : ModelConfigW α) (optMax : Option Nat) : Nat :=
  min (orDefaultNat optMax config.maxTokens) config.maxTokens

/-- `generateStream(prompt, options)` (part_010 lines 93-149), given the
session `run` oracle and per-step random draws. -/
def generateStream (run : List ℤ → Except String (Option (TensorW α))) (ex : α → α)
    (rands : Nat → α) (config : ModelConfigW α) (prompt : String)
    (options : InferenceOptionsW α) : List String :=
  let inputTokens := encode prompt
  let maxTokens := resolvedMaxTokens config options.maxTokens
  let temperature := options.temperature.getD config.temperature
  streamLoop run ex rands temperature options.topP options.topK options.stopSequences
    config.maxTokens maxTokens 0 inputTokens []

end ONNXInferenceEngine

end Engine

/-! ## Registry lemmas -/

section RegistryLemmas

variable {β : Type}

theorem lookupJS_isSome_iff (l : List (String × β)) (k : String) :
    (lookupJS l k).isSome = true ↔ k ∈ l.map Prod.fst := by
  induction l with
  | nil => simp [lookupJS]
  | cons p rest ih =>
    obtain ⟨k', v⟩ := p
    by_cases h : k' = k
    · subst h
      simp [lookupJS]
    · have h' : k ≠ k' := fun hh => h hh.symm
      simp [lookupJS, h, ih, h']

theorem lookupJS_none_not_mem {l : List (String × β)} {k : String}
    (h : lookupJS l k = none) : k ∉ l.map Prod.fst := by
  intro hmem
  have := (lookupJS_isSome_iff l k).mpr hmem
  rw [h] at this
  simp at this

end RegistryLemmas

/-! ## Claim C1 -/

/-- Claim C1 counterexample: a registry holding one model id m whose
`session.release()` throws.  `unloadModel "m"` returns `false` and the entry
is NOT removed: `getLoadedModels` still contains `"m"`, contradicting the
claim that the entry is removed regardless of the release outcome. -/
theorem unload_failed_release_entry_remains :
    (AIWorker.unloadModel
        ([("m", ⟨"m", "/models/m", some ⟨fun _ => Except.ok none, false⟩⟩)] :
          List (String × ModelInfoW ℚ)) "m").1 = false ∧
    "m" ∈ AIWorker.getLoadedModels
        (AIWorker.unloadModel
          ([("m", ⟨"m", "/models/m", some ⟨fun _ => Except.ok none, false⟩⟩)] :
            List (String × ModelInfoW ℚ)) "m").2 := by
  constructor
  · rfl
  · simp [AIWorker.unloadModel, AIWorker.getLoadedModels, lookupJS]

/-- Claim C1 (amended): `AIWorker.unloadModel` removes the registry entry
exactly when the release succeeds; when `session.release()` throws, the catch
block returns `false` before reaching `models.delete`, so the entry remains.
`ONNXModelLoader.unloadModel` likewise keeps the entry (and rethrows) when
release fails. -/
theorem unload_removes_entry_iff_release_ok {α : Type} [LinearOrderedField α]
    (models : List (String × ModelInfoW α)) (loader : List (String × SessionW α))
    (modelName : String) (mi : ModelInfoW α) (s ls : SessionW α)
    (hm : lookupJS models modelName = some mi) (hs : mi.session = some s)
    (hl : lookupJS loader modelName = some ls) :
    (s.releaseOk = true →
      AIWorker.unloadModel models modelName = (true, eraseKey models modelName)) ∧
    (s.releaseOk = false →
      AIWorker.unloadModel models modelName = (false, models)) ∧
    (ls.releaseOk = false →
      ONNXModelLoader.unloadModel loader modelName =
        (some ("Failed to unload model " ++ modelName), loader)) := by
  refine ⟨?_, ?_, ?_⟩ <;> intro h <;>
    simp [AIWorker.unloadModel, ONNXModelLoader.unloadModel, hm, hs, hl, h]

/-- Witness for the amended C1 theorem at a concrete one-entry registry with
a failing release on each side. -/
theorem unload_removes_entry_iff_release_ok_witness :
    AIWorker.unloadModel
        ([("m", ⟨"m", "/models/m", some ⟨fun _ => Except.ok none, false⟩⟩)] :
          List (String × ModelInfoW ℚ)) "m" =
      (false,
        [("m", ⟨"m", "/models/m", some ⟨fun _ => Except.ok none, false⟩⟩)]) :=
  (unload_removes_entry_iff_release_ok
      [("m", ⟨"m", "/models/m", some ⟨fun _ => Except.ok none, false⟩⟩)]
      ([("m", (⟨fun _ => Except.ok none, false⟩ : SessionW ℚ))])
      "m" _ _ _ rfl rfl rfl).2.1 rfl

/-! ## Claim C5 -/

/-- Claim C5: `loadModel` is idempotent: if a first call returned `true`,
a second consecutive call returns `true`, performs no new allocation
(third component `false`), leaves the registry unchanged, and
`getLoadedModels` contains the id exactly once. -/
theorem loadModel_idempotent_no_realloc {α : Type} [LinearOrderedField α]
    (models : List (String × ModelInfoW α)) (modelName p1 p2 : String)
    (c1 c2 : Option (SessionW α))
    (hnodup : (models.map Prod.fst).Nodup)
    (h1 : (AIWorker.loadModel models modelName p1 c1).1 = true) :
    (AIWorker.loadModel (AIWorker.loadModel models modelName p1 c1).2.1
        modelName p2 c2).1 = true ∧
    (AIWorker.loadModel (AIWorker.loadModel models modelName p1 c1).2.1
        modelName p2 c2).2.2 = false ∧
    (AIWorker.loadModel (AIWorker.loadModel models modelName p1 c1).2.1
        modelName p2 c2).2.1 = (AIWorker.loadModel models modelName p1 c1).2.1 ∧
    (AIWorker.getLoadedModels
        (AIWorker.loadModel models modelName p1 c1).2.1).count modelName = 1 := by
  by_cases hl : (lookupJS models modelName).isSome = true
  · have hmem : modelName ∈ models.map Prod.fst := (lookupJS_isSome_iff models modelName).mp hl
    refine ⟨?_, ?_, ?_, ?_⟩ <;>
      simp [AIWorker.loadModel, AIWorker.getLoadedModels, hl,
        List.count_eq_one_of_mem hnodup hmem]
  · cases c1 with
    | none => simp [AIWorker.loadModel, hl] at h1
    | some s =>
      have hnot : modelName ∉ models.map Prod.fst := fun hmem =>
        hl ((lookupJS_isSome_iff models modelName).mpr hmem)
      have hmem1 : modelName ∈
          (models ++ [(modelName, (⟨modelName, p1, some s⟩ : ModelInfoW α))]).map Prod.fst := by
        simp
      have hl1 : (lookupJS
          (models ++ [(modelName, (⟨modelName, p1, some s⟩ : ModelInfoW α))])
          modelName).isSome = true :=
        (lookupJS_isSome_iff _ modelName).mpr hmem1
      refine ⟨?_, ?_, ?_, ?_⟩ <;>
        simp [AIWorker.loadModel, AIWorker.getLoadedModels, hl, hl1,
          List.count_eq_zero_of_not_mem hnot]

/-- Witness for C5 at a concrete empty registry and successful allocation. -/
theorem loadModel_idempotent_no_realloc_witness :
    (AIWorker.loadModel
        (AIWorker.loadModel ([] : List (String × ModelInfoW ℚ)) "m" "/models/m"
            (some ⟨fun _ => Except.ok none, true⟩)).2.1
        "m" "/models/m" (some ⟨fun _ => Except.ok none, true⟩)).1 = true ∧
    (AIWorker.loadModel
        (AIWorker.loadModel ([] : List (String × ModelInfoW ℚ)) "m" "/models/m"
            (some ⟨fun _ => Except.ok none, true⟩)).2.1
        "m" "/models/m" (some ⟨fun _ => Except.ok none, true⟩)).2.2 = false ∧
    (AIWorker.loadModel
        (AIWorker.loadModel ([] : List (String × ModelInfoW ℚ)) "m" "/models/m"
            (some ⟨fun _ => Except.ok none, true⟩)).2.1
        "m" "/models/m" (some ⟨fun _ => Except.ok none, true⟩)).2.1 =
      (AIWorker.loadModel ([] : List (String × ModelInfoW ℚ)) "m" "/models/m"
          (some ⟨fun _ => Except.ok none, true⟩)).2.1 ∧
    (AIWorker.getLoadedModels
        (AIWorker.loadModel ([] : List (String × ModelInfoW ℚ)) "m" "/models/m"
            (some ⟨fun _ => Except.ok none, true⟩)).2.1).count "m" = 1 :=
  loadModel_idempotent_no_realloc [] "m" "/models/m" "/models/m"
    (some ⟨fun _ => Except.ok none, true⟩) (some ⟨fun _ => Except.ok none, true⟩)
    (by simp) rfl

/-! ## Claim C9 -/

/-- Claim C9: `loadModel` on an id that is not loaded and whose session
allocation fails (no registered artifact at the location, so
`InferenceSession.create` throws) returns `false`, allocates nothing, and
leaves the registry — hence `getLoadedModels` — unchanged.  The function is
total: no exception crosses the boundary. -/
theorem loadModel_unregistered_false {α : Type} [LinearOrderedField α]
    (models : List (String × ModelInfoW α)) (modelName modelPath : String)
    (hnot : lookupJS models modelName = none) :
    AIWorker.loadModel models modelName modelPath (none : Option (SessionW α)) =
      (false, models, false) ∧
    AIWorker.getLoadedModels
        (AIWorker.loadModel models modelName modelPath
          (none : Option (SessionW α))).2.1 =
      AIWorker.getLoadedModels models := by
  constructor <;> simp [AIWorker.loadModel, hnot]

/-- Witness for C9 at the empty registry: `getLoadedModels` stays empty. -/
theorem loadModel_unregistered_false_witness :
    AIWorker.loadModel ([] : List (String × ModelInfoW ℚ)) "m1" "/models/m1" none =
      (false, [], false) ∧
    AIWorker.getLoadedModels
        (AIWorker.loadModel ([] : List (String × ModelInfoW ℚ)) "m1" "/models/m1"
          none).2.1 =
      AIWorker.getLoadedModels ([] : List (String × ModelInfoW ℚ)) :=
  loadModel_unregistered_false [] "m1" "/models/m1" rfl

/-! ## Claim C3 -/

theorem errString_marked (msg : String) :
    ∃ rest, AIWorker.errString msg = "[Inference Error: " ++ rest := by
  refine ⟨msg ++
    ". This could mean the model file is missing, incompatible, or the model requires a specific input format. Please check that ONNX models are properly loaded in the /models directory.]",
    ?_⟩
  simp [AIWorker.errString, String.append_assoc]

/-- Claim C3: `generateText` never throws across the boundary: the embedding
is a total function, and on every internal failure path — unknown or
unloaded model id, a throwing `session.run`, or a missing output tensor —
the returned string starts with the diagnostic marker
`"[Inference Error: "`. -/
theorem generateText_failures_inband {α : Type} [LinearOrderedField α]
    (ex : α → α) (models : List (String × ModelInfoW α)) (modelName prompt : String)
    (options : AIWorker.GenOptionsW α) (random : α) :
    (lookupJS models modelName = none →
      ∃ rest, AIWorker.generateText ex models modelName prompt options random =
        "[Inference Error: " ++ rest) ∧
    (∀ mi, lookupJS models modelName = some mi → mi.session = none →
      ∃ rest, AIWorker.generateText ex models modelName prompt options random =
        "[Inference Error: " ++ rest) ∧
    (∀ mi s e, lookupJS models modelName = some mi → mi.session = some s →
      s.run (encode prompt) = Except.error e →
      ∃ rest, AIWorker.generateText ex models modelName prompt options random =
        "[Inference Error: " ++ rest) ∧
    (∀ mi s, lookupJS models modelName = some mi → mi.session = some s →
      s.run (encode prompt) = Except.ok none →
      ∃ rest, AIWorker.generateText ex models modelName prompt options random =
        "[Inference Error: " ++ rest) := by
  refine ⟨fun hm => ?_, fun mi hm hs => ?_, fun mi s e hm hs hr => ?_,
    fun mi s hm hs hr => ?_⟩
  · have : AIWorker.generateText ex models modelName prompt options random =
        AIWorker.errString ("Model " ++ modelName ++ " not loaded") := by
      simp [AIWorker.generateText, hm]
    rw [this]
    exact errString_marked _
  · have : AIWorker.generateText ex models modelName prompt options random =
        AIWorker.errString ("Model " ++ modelName ++ " not loaded") := by
      simp [AIWorker.generateText, hm, hs]
    rw [this]
    exact errString_marked _
  · have : AIWorker.generateText ex models modelName prompt options random =
        AIWorker.errString e := by
      simp [AIWorker.generateText, hm, hs, hr]
    rw [this]
    exact errString_marked _
  · have : AIWorker.generateText ex models modelName prompt options random =
        AIWorker.errString "No output tensor found in model results" := by
      simp [AIWorker.generateText, hm, hs, hr]
    rw [this]
    exact errString_marked _

/-- Witness for C3: `generateText` on a never-loaded id against the empty
registry returns a string beginning with the diagnostic marker. -/
theorem generateText_failures_inband_witness :
    ∃ rest, AIWorker.generateText (fun x : ℚ => x) [] "m1" "hi"
        ⟨none, none, none, none⟩ 0 = "[Inference Error: " ++ rest :=
  (generateText_failures_inband (fun x : ℚ => x) [] "m1" "hi"
    ⟨none, none, none, none⟩ 0).1 rfl

/-! ## Claim C10 -/

/-- Claim C10: on the success path (model loaded, `run` produced a tensor),
`generateText` never returns the empty string: when the decoded generated
text is empty, it returns the fixed placeholder
`"Generated response from ONNX model"` instead. -/
theorem generateText_success_never_empty {α : Type} [LinearOrderedField α]
    (ex : α → α) (models : List (String × ModelInfoW α)) (modelName prompt : String)
    (options : AIWorker.GenOptionsW α) (random : α) (mi : ModelInfoW α)
    (s : SessionW α) (t : TensorW α)
    (hm : lookupJS models modelName = some mi) (hs : mi.session = some s)
    (ht : s.run (encode prompt) = Except.ok (some t)) :
    AIWorker.generateText ex models modelName prompt options random ≠ "" ∧
    (decode (AIWorker.greedyDecode ex t (orDefaultNat options.maxTokens 100)
        (orDefault options.temperature 1) options.topP random) = "" →
      AIWorker.generateText ex models modelName prompt options random =
        "Generated response from ONNX model") := by
  have key : AIWorker.generateText ex models modelName prompt options random =
      (if decode (AIWorker.greedyDecode ex t (orDefaultNat options.maxTokens 100)
            (orDefault options.temperature 1) options.topP random) = "" then
        "Generated response from ONNX model"
      else
        decode (AIWorker.greedyDecode ex t (orDefaultNat options.maxTokens 100)
          (orDefault options.temperature 1) options.topP random)) := by
    simp [AIWorker.generateText, hm, hs, ht]
  rw [key]
  by_cases hg : decode (AIWorker.greedyDecode ex t (orDefaultNat options.maxTokens 100)
      (orDefault options.temperature 1) options.topP random) = "" <;>
    simp [hg]

/-- Witness for C10 at a concrete loaded model whose `run` yields a tensor. -/
theorem generateText_success_never_empty_witness :
    AIWorker.generateText (fun x : ℚ => x)
        ([("m", ⟨"m", "/models/m",
            some ⟨fun _ => Except.ok (some ⟨[1, 0], [1, 1, 2]⟩), true⟩⟩)] :
          List (String × ModelInfoW ℚ)) "m" "hi" ⟨none, none, none, none⟩ (1/2) ≠ "" :=
  (generateText_success_never_empty (fun x : ℚ => x)
    [("m", ⟨"m", "/models/m",
        some ⟨fun _ => Except.ok (some ⟨[1, 0], [1, 1, 2]⟩), true⟩⟩)]
    "m" "hi" ⟨none, none, none, none⟩ (1/2) _ _ _ rfl rfl rfl).1

/-! ## Claim C2 -/

theorem streamLoop_length_le {α : Type} [LinearOrderedField α]
    (run : List ℤ → Except String (Option (TensorW α))) (ex : α → α)
    (rands : Nat → α) (temperature : α) (topP : Option α) (topK : Option Nat)
    (stopSequences : Option (List String)) (configMax : Nat) :
    ∀ (fuel i : Nat) (currentTokens : List ℤ) (acc : List String),
      (ONNXInferenceEngine.streamLoop run ex rands temperature topP topK
          stopSequences configMax fuel i currentTokens acc).length ≤
        fuel + acc.length := by
  intro fuel
  induction fuel with
  | zero =>
    intro i cur acc
    simp [ONNXInferenceEngine.streamLoop]
  | succ n ih =>
    intro i cur acc
    simp only [ONNXInferenceEngine.streamLoop]
    cases hrun : run cur with
    | error e =>
      simp only [List.length_reverse]
      omega
    | ok ot =>
      cases ot with
      | none =>
        simp only [List.length_reverse]
        omega
      | some t =>
        cases hstop : ONNXInferenceEngine.isStopToken
            (ONNXInferenceEngine.sampleToken ex t temperature topP topK (rands i))
            stopSequences
        · simp only [hstop, Bool.false_eq_true, if_false]
          by_cases hlen : configMax <
              (cur ++ [ONNXInferenceEngine.sampleToken ex t temperature topP topK
                (rands i)]).length
          · rw [if_pos hlen]
            simp only [List.length_reverse, List.length_cons]
            omega
          · rw [if_neg hlen]
            have := ih (i + 1)
              (cur ++ [ONNXInferenceEngine.sampleToken ex t temperature topP topK
                (rands i)])
              (decode [ONNXInferenceEngine.sampleToken ex t temperature topP topK
                (rands i)] :: acc)
            simp only [List.length_cons] at this
            omega
        · simp only [hstop, if_true, List.length_reverse]
          omega

/-- Claim C2 counterexample: with `maxTokens = 5` and no stop sequence in
play (the `greedyDecode` of the worker takes no stop sequences at all, and
`generateText` never reads `options.stopTokens`), the worker generates
exactly one token — strictly fewer than 5 without any stop-sequence match;
`ex` stands in for `Math.exp`, on which the token count does not depend. -/
theorem greedyDecode_single_token_counterexample :
    (AIWorker.greedyDecode (fun x : ℚ => x) ⟨[1, 0], [1, 1, 2]⟩ 5 1 none
        (1 / 2)).length = 1 ∧
    (AIWorker.greedyDecode (fun x : ℚ => x) ⟨[1, 0], [1, 1, 2]⟩ 5 1 none
        (1 / 2)).length < 5 := by
  constructor
  · rfl
  · simp [AIWorker.greedyDecode]

/-- Claim C2 (amended): the `greedyDecode` of the worker performs a single
sampling step and always returns exactly one token, independently of
`maxTokens`; the actual decode loop, `ONNXInferenceEngine.generateStream`,
yields at most `min(options.maxTokens || config.maxTokens, config.maxTokens)`
tokens — in particular at most `n` tokens whenever `maxTokens = n` with
`0 < n ≤ config.maxTokens` — terminating early on a stop-token match, a
missing output tensor, or a thrown `run`. -/
theorem decode_loop_token_bounds {α : Type} [LinearOrderedField α] :
    (∀ (ex : α → α) (t : TensorW α) (maxTokens : Nat) (temperature : α)
        (topP : Option α) (random : α),
      (AIWorker.greedyDecode ex t maxTokens temperature topP random).length = 1) ∧
    (∀ (run : List ℤ → Except String (Option (TensorW α))) (ex : α → α)
        (rands : Nat → α) (config : ModelConfigW α) (prompt : String)
        (options : InferenceOptionsW α),
      (ONNXInferenceEngine.generateStream run ex rands config prompt
          options).length ≤
        ONNXInferenceEngine.resolvedMaxTokens config options.maxTokens) ∧
    (∀ (run : List ℤ → Except String (Option (TensorW α))) (ex : α → α)
        (rands : Nat → α) (config : ModelConfigW α) (prompt : String)
        (options : InferenceOptionsW α) (n : Nat),
      options.maxTokens = some n → 0 < n → n ≤ config.maxTokens →
      (ONNXInferenceEngine.generateStream run ex rands config prompt
          options).length ≤ n) := by
  have hstream : ∀ (run : List ℤ → Except String (Option (TensorW α))) (ex : α → α)
      (rands : Nat → α) (config : ModelConfigW α) (prompt : String)
      (options : InferenceOptionsW α),
      (ONNXInferenceEngine.generateStream run ex rands config prompt
          options).length ≤
        ONNXInferenceEngine.resolvedMaxTokens config options.maxTokens := by
    intro run ex rands config prompt options
    have := streamLoop_length_le run ex rands (options.temperature.getD config.temperature)
      options.topP options.topK options.stopSequences config.maxTokens
      (ONNXInferenceEngine.resolvedMaxTokens config options.maxTokens) 0
      (encode prompt) []
    simpa [ONNXInferenceEngine.generateStream] using this
  refine ⟨fun ex t maxTokens temperature topP random => rfl, hstream,
    fun run ex rands config prompt options n hn hpos hle => ?_⟩
  have := hstream run ex rands config prompt options
  have hres : ONNXInferenceEngine.resolvedMaxTokens config options.maxTokens = n := by
    simp [ONNXInferenceEngine.resolvedMaxTokens, hn, orDefaultNat,
      Nat.pos_iff_ne_zero.mp hpos, min_eq_left hle]
  omega

/-- Witness for C2 (amended) at a concrete stream configuration with
`maxTokens = 5 ≤ config.maxTokens = 7`. -/
theorem decode_loop_token_bounds_witness :
    (ONNXInferenceEngine.generateStream (fun _ => Except.ok none)
        (fun x : ℚ => x) (fun _ => 0) ⟨7, 1⟩ "hi"
        ⟨none, some 5, none, none, none⟩).length ≤ 5 :=
  (decode_loop_token_bounds (α := ℚ)).2.2 (fun _ => Except.ok none)
    (fun x : ℚ => x) (fun _ => 0) ⟨7, 1⟩ "hi" ⟨none, some 5, none, none, none⟩ 5
    rfl (by norm_num) (by norm_num)

/-! ## Claim C8 -/

theorem walkSelectAux_zero_none {α : Type} [LinearOrderedField α] :
    ∀ (l : List α) (random cum : α) (i : Nat),
      (∀ x ∈ l, x = 0) → cum ≤ 0 → 0 < random →
      walkSelectAux l random cum i = none := by
  intro l
  induction l with
  | nil =>
    intro random cum i _ _ _
    rfl
  | cons p rest ih =>
    intro random cum i hz hc hr
    have hp : p = 0 := hz p (by simp)
    subst hp
    simp only [walkSelectAux, add_zero]
    rw [if_neg (by linarith)]
    exact ih random cum (i + 1) (fun x hx => hz x (by simp [hx])) hc hr

/-- Claim C8 (amended): the sampling step is a total function (the engine
cannot crash), and on an all-zero (collapsed) distribution with a positive
draw the walk selects no token; in that case the sampler of the worker
(aiWorker.ts lines 277-291) falls back to the argmax
`probs.indexOf(Math.max(...probs))`, while the `sampleToken` of the engine
(part_010 lines 269-282) falls back to the last index `probs.length - 1`,
not the argmax. -/
theorem sampler_fallback_no_crash {α : Type} [LinearOrderedField α]
    (probs : List α) (random : α)
    (hz : ∀ x ∈ probs, x = 0) (hr : 0 < random) :
    walkSelect probs random = none ∧
    walkFallbackW probs random = jsIndexOf probs (listMax probs) ∧
    walkFallbackE probs random = (probs.length : ℤ) - 1 := by
  have hnone : walkSelect probs random = none :=
    walkSelectAux_zero_none probs random 0 0 hz le_rfl hr
  exact ⟨hnone, by simp [walkFallbackW, hnone], by simp [walkFallbackE, hnone]⟩

/-- Witness for C8 (amended) on the collapsed distribution `[0, 0]` with
draw `1/2`. -/
theorem sampler_fallback_no_crash_witness :
    walkSelect [(0 : ℚ), 0] (1 / 2) = none ∧
    walkFallbackW [(0 : ℚ), 0] (1 / 2) = jsIndexOf [(0 : ℚ), 0] (listMax [(0 : ℚ), 0]) ∧
    walkFallbackE [(0 : ℚ), 0] (1 / 2) = ((([(0 : ℚ), 0]).length : ℤ) - 1) :=
  sampler_fallback_no_crash [(0 : ℚ), 0] (1 / 2) (by decide) (by norm_num)

/-- Claim C8 counterexample: on the post-filter vector `[1/100, 0]` with draw
`1/2` the walk selects no token, and the `sampleToken` fallback of the engine
returns the last index `1`, which differs from the deterministic argmax `0`
— refuting the claim that the engine falls back to the argmax. -/
theorem sampleToken_fallback_last_not_argmax :
    walkFallbackE [(1 : ℚ) / 100, 0] (1 / 2) = 1 ∧
    jsIndexOf [(1 : ℚ) / 100, 0] (listMax [(1 : ℚ) / 100, 0]) = 0 ∧
    walkFallbackE [(1 : ℚ) / 100, 0] (1 / 2) ≠
      jsIndexOf [(1 : ℚ) / 100, 0] (listMax [(1 : ℚ) / 100, 0]) := by
  have hmax : listMax [(1 : ℚ) / 100, 0] = 1 / 100 := by
    simp only [listMax, List.foldl]
    rw [max_eq_left (by norm_num)]
  have hwalk : walkSelect [(1 : ℚ) / 100, 0] (1 / 2) = none := by
    simp only [walkSelect, walkSelectAux, zero_add, add_zero]
    rw [if_neg (by norm_num), if_neg (by norm_num)]
  have h1 : walkFallbackE [(1 : ℚ) / 100, 0] (1 / 2) = 1 := by
    unfold walkFallbackE
    rw [hwalk]
    norm_num
  have h2 : jsIndexOf [(1 : ℚ) / 100, 0] (listMax [(1 : ℚ) / 100, 0]) = 0 := by
    rw [hmax]
    simp [jsIndexOf, idxOf?]
  refine ⟨h1, h2, ?_⟩
  rw [h1, h2]
  norm_num

/-! ## Claim C7 -/

theorem takeToMassP_mass {α : Type} [LinearOrderedField α] :
    ∀ (l : List (Nat × α)) (cum p : α),
      p ≤ cum + (l.map Prod.snd).sum →
      p ≤ cum + ((takeToMassP l cum p).map Prod.snd).sum := by
  intro l
  induction l with
  | nil =>
    intro cum p h
    simpa [takeToMassP] using h
  | cons item rest ih =>
    intro cum p h
    simp only [List.map_cons, List.sum_cons] at h
    simp only [takeToMassP]
    by_cases hc : p ≤ cum + item.2
    · rw [if_pos hc]
      simpa using hc
    · rw [if_neg hc]
      have := ih (cum + item.2) p (by linarith)
      simp only [List.map_cons, List.sum_cons]
      linarith

theorem takeToMassP_decomp {α : Type} [LinearOrderedField α] :
    ∀ (l : List (Nat × α)) (cum p : α), ∃ rest, l = takeToMassP l cum p ++ rest := by
  intro l
  induction l with
  | nil =>
    intro cum p
    exact ⟨[], rfl⟩
  | cons item rest ih =>
    intro cum p
    simp only [takeToMassP]
    by_cases hc : p ≤ cum + item.2
    · rw [if_pos hc]
      exact ⟨rest, rfl⟩
    · rw [if_neg hc]
      obtain ⟨r, hr⟩ := ih (cum + item.2) p
      exact ⟨r, by rw [List.cons_append, ← hr]⟩

theorem zeroOutside_nucleus_sum {α : Type} [LinearOrderedField α]
    (probs : List α) (p : α) (hsum : p ≤ probs.sum) :
    p ≤ (zeroOutside probs (nucleusIndices probs p)).sum := by
  have hperm : List.Perm (sortPairs probs) probs.enum := List.perm_insertionSort _ _
  obtain ⟨restL, hdecomp⟩ := takeToMassP_decomp (sortPairs probs) 0 p
  have hnodup : ((sortPairs probs).map Prod.fst).Nodup := by
    refine ((hperm.map Prod.fst).nodup_iff).mpr ?_
    rw [List.enum_map_fst]
    exact List.nodup_range _
  have hdisj : ∀ pr ∈ restL,
      pr.1 ∉ (takeToMassP (sortPairs probs) 0 p).map Prod.fst := by
    intro pr hpr
    rw [hdecomp, List.map_append] at hnodup
    exact fun hmem =>
      ((List.nodup_append.mp hnodup).2.2 hmem (List.mem_map_of_mem Prod.fst hpr))
  have hg : ∀ K : List Nat, (zeroOutside probs K).sum =
      ((sortPairs probs).map fun pr => if pr.1 ∈ K then pr.2 else 0).sum := by
    intro K
    exact ((hperm.map fun pr : Nat × α => if pr.1 ∈ K then pr.2 else 0).sum_eq).symm
  have htaken_sum : (zeroOutside probs (nucleusIndices probs p)).sum =
      ((takeToMassP (sortPairs probs) 0 p).map Prod.snd).sum := by
    rw [hg]
    conv_lhs => rw [hdecomp]
    rw [List.map_append, List.sum_append]
    have h1 : (takeToMassP (sortPairs probs) 0 p).map
        (fun pr : Nat × α => if pr.1 ∈ nucleusIndices probs p then pr.2 else 0) =
        (takeToMassP (sortPairs probs) 0 p).map Prod.snd := by
      refine List.map_congr_left fun pr hpr => ?_
      rw [if_pos]
      exact List.mem_map_of_mem Prod.fst hpr
    have h2 : (restL.map
        (fun pr : Nat × α => if pr.1 ∈ nucleusIndices probs p then pr.2 else 0)).sum =
        (0 : α) := by
      apply List.sum_eq_zero
      intro x hx
      obtain ⟨pr, hpr, rfl⟩ := List.mem_map.mp hx
      exact if_neg (hdisj pr hpr)
    rw [h1, h2, add_zero]
  rw [htaken_sum]
  have hmass := takeToMassP_mass (sortPairs probs) 0 p ?_
  · simpa using hmass
  · have : ((sortPairs probs).map Prod.snd).sum = probs.sum := by
      rw [(hperm.map Prod.snd).sum_eq, List.enum_map_snd]
    rw [this]
    simpa using hsum

/-- Claim C7: for a probability vector summing to 1 and any
`topP ∈ (0, 1]`, the tokens retained by the nucleus filter (those not
zeroed) carry pre-filter cumulative probability at least `topP` — for
`topP = 1` the guard skips the filter entirely and everything is retained. -/
theorem nucleus_retains_topP_mass {α : Type} [LinearOrderedField α]
    (probs : List α) (topP : α)
    (hsum : probs.sum = 1) (h0 : 0 < topP) (h1 : topP ≤ 1) :
    topP ≤ (applyTopPFilter probs (some topP)).sum := by
  by_cases hp : topP < 1
  · have hfilter : applyTopPFilter probs (some topP) =
        zeroOutside probs (nucleusIndices probs topP) := by
      simp [applyTopPFilter, h0, hp]
    rw [hfilter]
    exact zeroOutside_nucleus_sum probs topP (by rw [hsum]; exact h1)
  · have hp1 : topP = 1 := le_antisymm h1 (not_lt.mp hp)
    simp [applyTopPFilter, hp1, hsum]

/-- Witness for C7 at the concrete distribution `[1/2, 1/4, 1/4]` with
`topP = 3/5`: the retained nucleus keeps mass `3/4 ≥ 3/5`. -/
theorem nucleus_retains_topP_mass_witness :
    (3 : ℚ) / 5 ≤ (applyTopPFilter [(1 : ℚ) / 2, 1 / 4, 1 / 4] (some (3 / 5))).sum :=
  nucleus_retains_topP_mass [(1 : ℚ) / 2, 1 / 4, 1 / 4] (3 / 5) (by norm_num)
    (by norm_num) (by norm_num)

/-! ## Claim C6 -/

section TemperatureLemmas

variable {α : Type} [LinearOrderedField α]

theorem scaleTemp_eq_map (T : α) (l : List α) :
    scaleTemp T l = l.map fun x => x / T := by
  unfold scaleTemp
  by_cases hT : T = 1
  · rw [if_pos hT, hT]
    simp
  · rw [if_neg hT]

theorem foldl_max_map {f : α → α} (hf : Monotone f) :
    ∀ (as : List α) (a : α), (as.map f).foldl max (f a) = f (as.foldl max a) := by
  intro as
  induction as with
  | nil => intro a; rfl
  | cons b as ih =>
    intro a
    simp only [List.map_cons, List.foldl_cons]
    rw [← hf.map_max, ih]

theorem listMax_map_div (l : List α) {T : α} (hT : 0 < T) :
    listMax (l.map fun x => x / T) = listMax l / T := by
  cases l with
  | nil => simp [listMax]
  | cons a as =>
    simp only [listMax, List.map_cons]
    exact foldl_max_map (fun x y h => (div_le_div_right hT).mpr h) as a

theorem le_foldl_max_init : ∀ (as : List α) (a : α), a ≤ as.foldl max a := by
  intro as
  induction as with
  | nil => intro a; simp
  | cons b as ih =>
    intro a
    simp only [List.foldl_cons]
    exact le_trans (le_max_left a b) (ih (max a b))

theorem le_foldl_max_mem : ∀ (as : List α) (a x : α), x ∈ as → x ≤ as.foldl max a := by
  intro as
  induction as with
  | nil => intro a x hx; cases hx
  | cons b as ih =>
    intro a x hx
    simp only [List.foldl_cons]
    rcases List.mem_cons.mp hx with h | h
    · subst h
      exact le_trans (le_max_right a x) (le_foldl_max_init as (max a x))
    · exact ih (max a b) x h

theorem le_listMax (l : List α) (x : α) (hx : x ∈ l) : x ≤ listMax l := by
  cases l with
  | nil => cases hx
  | cons a as =>
    simp only [listMax]
    rcases List.mem_cons.mp hx with h | h
    · subst h
      exact le_foldl_max_init as x
    · exact le_foldl_max_mem as a x h

theorem map_sum_eq_fin {β : Type} [AddCommMonoid β] (l : List α) (g : α → β) :
    (l.map g).sum = ∑ i : Fin l.length, g (l.get i) := by
  conv_lhs => rw [← List.ofFn_get l]
  rw [List.map_ofFn, List.sum_ofFn]
  rfl

end TemperatureLemmas

/-- The probability assigned by the worker pipeline (temperature scale, then
max-subtraction softmax) at a given T to position `i` equals
`1 / ∑ⱼ exp((lⱼ - max) / T)` when `i` attains the maximum logit. -/
theorem softmax_top_entry (l : List ℝ) (T : ℝ) (i : Nat) (hi : i < l.length)
    (hT : 0 < T) (hmax : l.get ⟨i, hi⟩ = listMax l) :
    (softmaxMS Real.exp (scaleTemp T l)).getD i 0 =
      1 / ∑ j : Fin l.length, Real.exp ((l.get j - listMax l) / T) := by
  rw [scaleTemp_eq_map]
  simp only [softmaxMS, listMax_map_div l hT, List.map_map]
  have hlen : i < (l.map fun x => Real.exp (x / T - listMax l / T)).length := by
    simpa using hi
  have hgoal : (l.map ((fun e => e /
        ((l.map fun x => Real.exp (x / T - listMax l / T)).sum)) ∘
        fun x => Real.exp (x / T - listMax l / T))).getD i 0 =
      Real.exp (l.get ⟨i, hi⟩ / T - listMax l / T) /
        ((l.map fun x => Real.exp (x / T - listMax l / T)).sum) := by
    rw [List.getD_eq_get?, List.get?_map, List.get?_eq_get hi]
    rfl
  have hfun : ((fun x => Real.exp (x - listMax l / T)) ∘ fun x => x / T) =
      fun x => Real.exp (x / T - listMax l / T) := rfl
  rw [hfun, hgoal, hmax, div_sub_div_same, sub_self, zero_div, Real.exp_zero]
  congr 1
  have : (fun x : ℝ => Real.exp (x / T - listMax l / T)) =
      fun x : ℝ => Real.exp ((x - listMax l) / T) := by
    funext x
    rw [div_sub_div_same]
  rw [this, map_sum_eq_fin]

/-- Claim C6 counterexample: on the flat logit vector `[0, 0]` with
temperatures `T₁ = 1 < T₂ = 2`, the post-softmax probability of the
top-logit token is
`1/2` at both temperatures, so it is not strictly greater at
the lower temperature. -/
theorem temperature_no_sharpening_on_flat_logits :
    (softmaxMS Real.exp (scaleTemp 1 [(0 : ℝ), 0])).getD 0 0 =
      (softmaxMS Real.exp (scaleTemp 2 [(0 : ℝ), 0])).getD 0 0 ∧
    ¬ ((softmaxMS Real.exp (scaleTemp 2 [(0 : ℝ), 0])).getD 0 0 <
        (softmaxMS Real.exp (scaleTemp 1 [(0 : ℝ), 0])).getD 0 0) := by
  have h0 : (0 : ℕ) < ([(0 : ℝ), 0]).length := by norm_num
  have hget : ([(0 : ℝ), 0]).get ⟨0, h0⟩ = listMax [(0 : ℝ), 0] := by
    simp [listMax]
  have h1 := softmax_top_entry [(0 : ℝ), 0] 1 0 h0 one_pos hget
  have h2 := softmax_top_entry [(0 : ℝ), 0] 2 0 h0 two_pos hget
  have hS : ∀ T : ℝ, 0 < T →
      (∑ j : Fin ([(0 : ℝ), 0]).length,
        Real.exp ((([(0 : ℝ), 0]).get j - listMax [(0 : ℝ), 0]) / T)) = 2 := by
    intro T hT
    have : ∀ j : Fin ([(0 : ℝ), 0]).length,
        Real.exp ((([(0 : ℝ), 0]).get j - listMax [(0 : ℝ), 0]) / T) = 1 := by
      intro j
      have hj : ([(0 : ℝ), 0]).get j = 0 := by
        fin_cases j <;> rfl
      rw [hj]
      simp [listMax]
    rw [Finset.sum_congr rfl fun j _ => this j]
    simp
  rw [h1, h2, hS 1 one_pos, hS 2 two_pos]
  exact ⟨rfl, lt_irrefl _⟩

/-- Claim C6 (amended): for a logit vector with at least one entry strictly
below the maximum, the probability of the top-logit token after temperature
scaling and max-subtraction softmax is strictly greater at the lower of two
positive temperatures (for a flat vector the distribution is uniform at
every temperature, so strictness needs this hypothesis). -/
theorem temperature_sharpens_top_prob (l : List ℝ) (T₁ T₂ : ℝ) (i : Nat)
    (hi : i < l.length) (hT₁ : 0 < T₁) (hT : T₁ < T₂)
    (hmax : l.get ⟨i, hi⟩ = listMax l)
    (hlt : ∃ j : Fin l.length, l.get j < listMax l) :
    (softmaxMS Real.exp (scaleTemp T₂ l)).getD i 0 <
      (softmaxMS Real.exp (scaleTemp T₁ l)).getD i 0 := by
  have hT₂ : 0 < T₂ := lt_trans hT₁ hT
  rw [softmax_top_entry l T₁ i hi hT₁ hmax, softmax_top_entry l T₂ i hi hT₂ hmax]
  have hpos : 0 < ∑ j : Fin l.length, Real.exp ((l.get j - listMax l) / T₁) := by
    refine Finset.sum_pos (fun j _ => Real.exp_pos _) ?_
    have : Nonempty (Fin l.length) := ⟨⟨i, hi⟩⟩
    exact Finset.univ_nonempty
  have hlt_sum : (∑ j : Fin l.length, Real.exp ((l.get j - listMax l) / T₁)) <
      ∑ j : Fin l.length, Real.exp ((l.get j - listMax l) / T₂) := by
    obtain ⟨j₀, hj₀⟩ := hlt
    refine Finset.sum_lt_sum (fun j _ => ?_) ⟨j₀, Finset.mem_univ _, ?_⟩
    · refine Real.exp_le_exp.mpr ?_
      have hd : l.get j - listMax l ≤ 0 :=
        sub_nonpos.mpr (le_listMax l (l.get j) (l.get_mem _ _))
      rw [div_le_div_iff hT₁ hT₂]
      exact mul_le_mul_of_nonpos_left (le_of_lt hT) hd
    · refine Real.exp_lt_exp.mpr ?_
      have hd : l.get j₀ - listMax l < 0 := sub_neg.mpr hj₀
      rw [div_lt_div_iff hT₁ hT₂]
      exact mul_lt_mul_of_neg_left hT hd
  exact one_div_lt_one_div_of_lt hpos hlt_sum

/-- Witness for the amended C6 theorem on logits `[1, 0]` with
`T₁ = 1 < T₂ = 2` at the top-logit position `0`. -/
theorem temperature_sharpens_top_prob_witness :
    (softmaxMS Real.exp (scaleTemp 2 [(1 : ℝ), 0])).getD 0 0 <
      (softmaxMS Real.exp (scaleTemp 1 [(1 : ℝ), 0])).getD 0 0 :=
  temperature_sharpens_top_prob [(1 : ℝ), 0] 1 2 0 (by norm_num) one_pos
    one_lt_two (by simp [listMax])
    ⟨⟨1, by norm_num⟩, by simp [listMax]⟩

/-! ## Claim C4: tokenizer round-trip machinery -/

theorem charToLower_idem (c : Char) : charToLower (charToLower c) = charToLower c := by
  cases hf : lowerTable.find? (fun p => p.1 == c) with
  | none =>
    have h1 : charToLower c = c := by simp [charToLower, hf]
    rw [h1, h1]
  | some p =>
    have h1 : charToLower c = p.2 := by simp [charToLower, hf]
    have hp : p ∈ lowerTable := List.mem_of_find?_eq_some hf
    have h2 : ∀ q ∈ lowerTable, charToLower q.2 = q.2 := by decide
    rw [h1, h2 p hp]

theorem toLowerStr_idem (s : String) : toLowerStr (toLowerStr s) = toLowerStr s := by
  unfold toLowerStr
  simp only [List.map_map]
  congr 1
  exact List.map_congr_left fun c _ => charToLower_idem c

theorem splitWsAux_append_nonws :
    ∀ (w : List Char), (∀ c ∈ w, isWs c = false) →
      ∀ (cs acc : List Char), splitWsAux (w ++ cs) acc = splitWsAux cs (w.reverse ++ acc) := by
  intro w
  induction w with
  | nil =>
    intro _ cs acc
    simp
  | cons c w ih =>
    intro hw cs acc
    have hc : isWs c = false := hw c (List.mem_cons_self c w)
    simp only [List.cons_append, splitWsAux, hc, Bool.false_eq_true, if_false,
      List.append_eq]
    rw [ih (fun x hx => hw x (List.mem_cons_of_mem c hx)) cs (c :: acc)]
    simp

theorem splitWs_space_cons (cs : List Char) : splitWs (' ' :: cs) = splitWs cs := rfl

theorem splitWs_word_cons (w : List Char) (hne : w ≠ [])
    (hw : ∀ c ∈ w, isWs c = false) (cs : List Char) :
    splitWs (w ++ ' ' :: cs) = w :: splitWs cs := by
  unfold splitWs
  rw [splitWsAux_append_nonws w hw (' ' :: cs) []]
  have hsp : isWs ' ' = true := rfl
  have hemp : w.reverse.isEmpty = false := by
    simp [List.isEmpty_iff, hne]
  simp only [splitWsAux, hsp, if_true, List.append_nil, hemp,
    Bool.false_eq_true, if_false, List.reverse_reverse]

theorem splitWs_word (w : List Char) (hne : w ≠ [])
    (hw : ∀ c ∈ w, isWs c = false) :
    splitWs w = [w] := by
  unfold splitWs
  have := splitWsAux_append_nonws w hw [] []
  rw [List.append_nil] at this
  rw [this]
  have hemp : w.reverse.isEmpty = false := by
    simp [List.isEmpty_iff, hne]
  simp only [splitWsAux, List.append_nil, hemp, Bool.false_eq_true, if_false,
    List.reverse_reverse]

theorem expandPunct_nonpunct (cs : List Char) (h : ∀ c ∈ cs, isPunct c = false) :
    expandPunct cs = cs := by
  induction cs with
  | nil => rfl
  | cons c cs ih =>
    have hc : isPunct c = false := h c (List.mem_cons_self c cs)
    simp only [expandPunct, List.flatMap_cons, hc, Bool.false_eq_true, if_false]
    simpa [expandPunct] using ih fun x hx => h x (List.mem_cons_of_mem c hx)

theorem expandPunct_append (a b : List Char) :
    expandPunct (a ++ b) = expandPunct a ++ expandPunct b := by
  simp only [expandPunct]
  exact List.flatMap_append a b _

theorem expandPunct_cons (c : Char) (cs : List Char) :
    expandPunct (c :: cs) =
      (if isPunct c then [' ', c, ' '] else [c]) ++ expandPunct cs := by
  simp [expandPunct]

/-- Unpack the Boolean `cleanTok` into its components. -/
theorem cleanTok_spec (cs : List Char) (h : cleanTok cs = true) :
    cs ≠ [] ∧ (∀ c ∈ cs, charToLower c = c ∧ isWs c = false) ∧
      (cs.length = 1 ∨ ∀ c ∈ cs, isPunct c = false) := by
  simp only [cleanTok, Bool.and_eq_true, Bool.or_eq_true, List.all_eq_true,
    Bool.not_eq_true', beq_iff_eq] at h
  obtain ⟨⟨hemp, hall⟩, hshape⟩ := h
  refine ⟨by simpa [List.isEmpty_iff] using hemp, fun c hc => ?_, ?_⟩
  · have := hall c hc
    simp only [Bool.and_eq_true, Bool.not_eq_true', beq_iff_eq] at this
    exact this
  · rcases hshape with h1 | h2
    · exact Or.inl h1
    · exact Or.inr fun c hc => by simpa using h2 c hc

theorem clean_expand_split_cons (w : List Char) (hw : cleanTok w = true)
    (cs : List Char) :
    splitWs (expandPunct w ++ ' ' :: cs) = w :: splitWs cs := by
  obtain ⟨hne, hall, hshape⟩ := cleanTok_spec w hw
  rcases hshape with hlen | hnp
  · obtain ⟨c, rfl⟩ : ∃ c, w = [c] := by
      cases w with
      | nil => cases hne rfl
      | cons c t =>
        cases t with
        | nil => exact ⟨c, rfl⟩
        | cons d t => simp at hlen
    by_cases hc : isPunct c = true
    · rw [expandPunct_cons, hc]
      simp only [expandPunct, List.flatMap_nil, if_true, List.append_nil]
      show splitWs (' ' :: c :: ' ' :: cs) = [c] :: splitWs cs
      rw [splitWs_space_cons]
      have : (c :: ' ' :: cs) = [c] ++ ' ' :: cs := rfl
      rw [this, splitWs_word_cons [c] (by simp) (by
        intro x hx
        simp only [List.mem_singleton] at hx
        subst hx
        exact (hall x (List.mem_singleton_self x)).2) cs]
    · have hcf : isPunct c = false := by simpa using hc
      rw [expandPunct_nonpunct [c] (by simpa using hcf)]
      exact splitWs_word_cons [c] (by simp)
        (fun x hx => (hall x hx).2) cs
  · rw [expandPunct_nonpunct w hnp]
    exact splitWs_word_cons w hne (fun x hx => (hall x hx).2) cs

theorem clean_expand_split_last (w : List Char) (hw : cleanTok w = true) :
    splitWs (expandPunct w) = [w] := by
  obtain ⟨hne, hall, hshape⟩ := cleanTok_spec w hw
  rcases hshape with hlen | hnp
  · obtain ⟨c, rfl⟩ : ∃ c, w = [c] := by
      cases w with
      | nil => cases hne rfl
      | cons c t =>
        cases t with
        | nil => exact ⟨c, rfl⟩
        | cons d t => simp at hlen
    by_cases hc : isPunct c = true
    · rw [expandPunct_cons, hc]
      simp only [expandPunct, List.flatMap_nil, if_true, List.append_nil]
      show splitWs (' ' :: [c] ++ [' ']) = [[c]]
      rw [List.cons_append, splitWs_space_cons]
      have : ([c] ++ [' '] : List Char) = [c] ++ ' ' :: [] := rfl
      rw [this, splitWs_word_cons [c] (by simp) (by
        intro x hx
        simp only [List.mem_singleton] at hx
        subst hx
        exact (hall x (List.mem_singleton_self x)).2) []]
      rfl
    · have hcf : isPunct c = false := by simpa using hc
      rw [expandPunct_nonpunct [c] (by simpa using hcf)]
      exact splitWs_word [c] (by simp) fun x hx => (hall x hx).2
  · rw [expandPunct_nonpunct w hnp]
    exact splitWs_word w hne fun x hx => (hall x hx).2

theorem joinWords_cons_cons (w v : List Char) (ws : List (List Char)) :
    joinWords (w :: v :: ws) = w ++ ' ' :: joinWords (v :: ws) := rfl

theorem splitWs_expand_join :
    ∀ (css : List (List Char)), (∀ w ∈ css, cleanTok w = true) →
      splitWs (expandPunct (joinWords css)) = css := by
  intro css
  induction css with
  | nil =>
    intro _
    rfl
  | cons w rest ih =>
    intro h
    cases rest with
    | nil =>
      exact clean_expand_split_last w (h w (List.mem_cons_self w []))
    | cons v rest' =>
      rw [joinWords_cons_cons]
      have hsp : isPunct ' ' = false := rfl
      have hstep : expandPunct (w ++ ' ' :: joinWords (v :: rest')) =
          expandPunct w ++ ' ' :: expandPunct (joinWords (v :: rest')) := by
        rw [expandPunct_append, expandPunct_cons]
        simp [hsp]
      rw [hstep, clean_expand_split_cons w (h w (List.mem_cons_self w _)),
        ih fun x hx => h x (List.mem_cons_of_mem w hx)]

theorem mem_joinWords :
    ∀ (css : List (List Char)) (c : Char), c ∈ joinWords css →
      (∃ w ∈ css, c ∈ w) ∨ c = ' ' := by
  intro css
  induction css with
  | nil =>
    intro c hc
    cases hc
  | cons w rest ih =>
    intro c hc
    cases rest with
    | nil =>
      exact Or.inl ⟨w, List.mem_cons_self w [], hc⟩
    | cons v rest' =>
      rw [joinWords_cons_cons] at hc
      rcases List.mem_append.mp hc with h | h
      · exact Or.inl ⟨w, List.mem_cons_self w _, h⟩
      · rcases List.mem_cons.mp h with h | h
        · exact Or.inr h
        · rcases ih c h with ⟨u, hu, hcu⟩ | h
          · exact Or.inl ⟨u, List.mem_cons_of_mem w hu, hcu⟩
          · exact Or.inr h

theorem map_toLower_join (css : List (List Char))
    (h : ∀ w ∈ css, cleanTok w = true) :
    (joinWords css).map charToLower = joinWords css := by
  have : ∀ c ∈ joinWords css, charToLower c = c := by
    intro c hc
    rcases mem_joinWords css c hc with ⟨w, hw, hcw⟩ | hsp
    · exact ((cleanTok_spec w (h w hw)).2.1 c hcw).1
    · subst hsp
      rfl
  calc (joinWords css).map charToLower
      = (joinWords css).map id := List.map_congr_left fun c hc => this c hc
    _ = joinWords css := List.map_id _

theorem idxLookup_ge :
    ∀ (ts : List String) (j : ℤ) (w : String) (i : ℤ),
      idxLookup ts j w = some i → j ≤ i := by
  intro ts
  induction ts with
  | nil =>
    intro j w i h
    cases h
  | cons t ts ih =>
    intro j w i h
    simp only [idxLookup] at h
    by_cases ht : t = w
    · rw [if_pos ht] at h
      injection h with h
      omega
    · rw [if_neg ht] at h
      have := ih (j + 1) w i h
      omega

theorem idxLookup_rev :
    ∀ (ts : List String) (j : ℤ) (w : String) (i : ℤ),
      idxLookup ts j w = some i → revLookup ts j i = some w := by
  intro ts
  induction ts with
  | nil =>
    intro j w i h
    cases h
  | cons t ts ih =>
    intro j w i h
    simp only [idxLookup] at h
    by_cases ht : t = w
    · rw [if_pos ht] at h
      injection h with h
      simp [revLookup, h, ht]
    · rw [if_neg ht] at h
      have hge := idxLookup_ge ts (j + 1) w i h
      have hne : ¬ j = i := by omega
      simp only [revLookup, hne, if_false]
      exact ih (j + 1) w i h

theorem revLookup_mem :
    ∀ (ts : List String) (j i : ℤ) (t : String),
      revLookup ts j i = some t → t ∈ ts := by
  intro ts
  induction ts with
  | nil =>
    intro j i t h
    cases h
  | cons hd ts ih =>
    intro j i t h
    simp only [revLookup] at h
    by_cases hj : j = i
    · rw [if_pos hj] at h
      injection h with h
      exact h ▸ List.mem_cons_self hd ts
    · rw [if_neg hj] at h
      exact List.mem_cons_of_mem hd (ih (j + 1) i t h)

theorem revLookup_idx :
    ∀ (ts : List String) (j i : ℤ) (t : String), ts.Nodup →
      revLookup ts j i = some t → idxLookup ts j t = some i := by
  intro ts
  induction ts with
  | nil =>
    intro j i t _ h
    cases h
  | cons hd ts ih =>
    intro j i t hnd h
    simp only [revLookup] at h
    by_cases hj : j = i
    · rw [if_pos hj] at h
      injection h with h
      simp [idxLookup, h, hj]
    · rw [if_neg hj] at h
      have hmem : t ∈ ts := revLookup_mem ts (j + 1) i t h
      have hne : ¬ hd = t := fun he => (List.nodup_cons.mp hnd).1 (he ▸ hmem)
      simp only [idxLookup, hne, if_false]
      exact ih (j + 1) i t (List.nodup_cons.mp hnd).2 h

theorem commonTokens_nodup : commonTokens.Nodup := by decide

theorem commonTokens_cleanTok :
    ∀ t ∈ commonTokens, toLowerStr t = t → cleanTok t.data = true := by decide

theorem tokenIdOf_good (w : String) (hw : toLowerStr w = w) :
    goodId (tokenIdOf w) = true := by
  unfold tokenIdOf
  cases hx : idxLookup commonTokens 0 w with
  | some i =>
    have hrev := idxLookup_rev commonTokens 0 w i hx
    simp [goodId, hrev, hw]
  | none =>
    have hunk : idxLookup commonTokens 0 "<unk>" = some 1 := by decide
    rw [hunk]
    decide

theorem encode_all_good (text : String) : ∀ i ∈ encode text, goodId i = true := by
  intro i hi
  simp only [encode, List.mem_map] at hi
  obtain ⟨w, _, rfl⟩ := hi
  exact tokenIdOf_good (toLowerStr w) (toLowerStr_idem w)

theorem goodId_token_notSentinel (i : ℤ) (h : goodId i = true) :
    notSentinel (tokenOfId i) = idOk i := by
  unfold goodId at h
  cases hrev : revLookup commonTokens 0 i with
  | none =>
    rw [hrev] at h
    cases h
  | some t =>
    rw [hrev] at h
    have ht : toLowerStr t = t := by simpa using h
    have htok : tokenOfId i = t := by simp [tokenOfId, hrev]
    rw [htok]
    have hidx : idxLookup commonTokens 0 t = some i :=
      revLookup_idx commonTokens 0 i t commonTokens_nodup hrev
    by_cases h0 : t = "<pad>"
    · have hi0 : i = 0 := by
        have h' : idxLookup commonTokens 0 "<pad>" = some 0 := by decide
        rw [h0, h'] at hidx
        injection hidx with hidx
        omega
      subst hi0
      rw [h0]
      decide
    · by_cases h2 : t = "<s>"
      · have hi2 : i = 2 := by
          have h' : idxLookup commonTokens 0 "<s>" = some 2 := by decide
          rw [h2, h'] at hidx
          injection hidx with hidx
          omega
        subst hi2
        rw [h2]
        decide
      · by_cases h3 : t = "</s>"
        · have hi3 : i = 3 := by
            have h' : idxLookup commonTokens 0 "</s>" = some 3 := by decide
            rw [h3, h'] at hidx
            injection hidx with hidx
            omega
          subst hi3
          rw [h3]
          decide
        · have hns : notSentinel t = true := by
            simp [notSentinel, h0, h2, h3]
          have hok : idOk i = true := by
            simp only [idOk, Bool.and_eq_true, Bool.not_eq_true', beq_eq_false_iff_ne,
              ne_eq]
            refine ⟨⟨fun he => ?_, fun he => ?_⟩, fun he => ?_⟩
            · subst he
              have h' : revLookup commonTokens 0 (0 : ℤ) = some "<pad>" := by decide
              rw [h'] at hrev
              injection hrev with hrev
              exact h0 hrev.symm
            · subst he
              have h' : revLookup commonTokens 0 (2 : ℤ) = some "<s>" := by decide
              rw [h'] at hrev
              injection hrev with hrev
              exact h2 hrev.symm
            · subst he
              have h' : revLookup commonTokens 0 (3 : ℤ) = some "</s>" := by decide
              rw [h'] at hrev
              injection hrev with hrev
              exact h3 hrev.symm
          rw [hns, hok]

/-- The central round-trip lemma: on any id sequence made of ids `encode`
can produce, `encode ∘ decode` is exactly the sentinel filter. -/
theorem encode_decode_good (ids : List ℤ) (h : ∀ i ∈ ids, goodId i = true) :
    encode (decode ids) = ids.filter idOk := by
  have hgood' : ∀ i ∈ ids.filter idOk, goodId i = true := fun i hi =>
    h i (List.mem_of_mem_filter hi)
  have hws : (ids.map tokenOfId).filter notSentinel =
      (ids.filter idOk).map tokenOfId := by
    rw [List.filter_map]
    congr 1
    apply List.filter_congr
    intro i hi
    simpa using goodId_token_notSentinel i (h i hi)
  have hcw : ∀ w ∈ (ids.filter idOk).map tokenOfId, cleanTok w.data = true := by
    intro w hw
    obtain ⟨i, hi, rfl⟩ := List.mem_map.mp hw
    have hg := hgood' i hi
    unfold goodId at hg
    cases hrev : revLookup commonTokens 0 i with
    | none =>
      rw [hrev] at hg
      cases hg
    | some t =>
      rw [hrev] at hg
      have ht : toLowerStr t = t := by simpa using hg
      have htok : tokenOfId i = t := by simp [tokenOfId, hrev]
      rw [htok]
      exact commonTokens_cleanTok t (revLookup_mem commonTokens 0 i t hrev) ht
  have hccss : ∀ cs ∈ ((ids.filter idOk).map tokenOfId).map String.data,
      cleanTok cs = true := by
    intro cs hcs
    obtain ⟨w, hw, rfl⟩ := List.mem_map.mp hcs
    exact hcw w hw
  have hdec : decode ids =
      ⟨joinWords (((ids.filter idOk).map tokenOfId).map String.data)⟩ := by
    unfold decode
    rw [hws]
  have htt : tokenizeText (decode ids) = (ids.filter idOk).map tokenOfId := by
    rw [hdec]
    unfold tokenizeText
    show (splitWs (expandPunct
        ((joinWords (((ids.filter idOk).map tokenOfId).map String.data)).map
          charToLower))).map (fun cs => (⟨cs⟩ : String)) =
      (ids.filter idOk).map tokenOfId
    rw [map_toLower_join _ hccss, splitWs_expand_join _ hccss,
      List.map_map]
    have hmk : ((ids.filter idOk).map tokenOfId).map
        ((fun cs => (⟨cs⟩ : String)) ∘ String.data) =
        ((ids.filter idOk).map tokenOfId).map id :=
      List.map_congr_left fun w _ => by cases w; rfl
    rw [hmk, List.map_id]
  unfold encode
  rw [htt, List.map_map]
  have hback : ∀ i ∈ ids.filter idOk,
      ((fun word => tokenIdOf (toLowerStr word)) ∘ tokenOfId) i = id i := by
    intro i hi
    have hg := hgood' i hi
    unfold goodId at hg
    cases hrev : revLookup commonTokens 0 i with
    | none =>
      rw [hrev] at hg
      cases hg
    | some t =>
      rw [hrev] at hg
      have ht : toLowerStr t = t := by simpa using hg
      have htok : tokenOfId i = t := by simp [tokenOfId, hrev]
      have hidx := revLookup_idx commonTokens 0 i t commonTokens_nodup hrev
      simp [htok, ht, tokenIdOf, hidx]
  rw [List.map_congr_left hback, List.map_id]

/-- Claim C4: the tokenizer round trip is a fixed point after one pass:
with `y = decode (encode x)`, re-encoding `decode (encode y)` gives exactly
`encode y` (although `decode (encode x)` need not equal `x`). -/
theorem encode_decode_encode_stable (x : String) :
    encode (decode (encode (decode (encode x)))) = encode (decode (encode x)) := by
  have h1 := encode_all_good x
  have k1 := encode_decode_good (encode x) h1
  have h2 : ∀ i ∈ (encode x).filter idOk, goodId i = true := fun i hi =>
    h1 i (List.mem_of_mem_filter hi)
  have k2 := encode_decode_good ((encode x).filter idOk) h2
  rw [k1, k2]
  exact List.filter_eq_self.mpr fun a ha => List.of_mem_filter ha

end MARCS
